import Mathlib

/-!
Verification of the BOLT-11 tag/amount codec (`src/tag.rs`, `src/lnaddr.rs`)
of Centril/bolt11-rust, as a shallow embedding in Lean 4.

Modelling conventions:
* Rust `u8`/`u16`/`u32`/`u64` values are `Nat`s; wherever the Rust code can
  overflow, the wrap is written explicitly as `% 2^w`.  In particular the
  parser's `(v[0] * 32 + v[1]) as usize` is `u8` arithmetic and wraps at 256
  (release-mode semantics).
* A Rust function returning `Result` becomes `Except Err`; code that can
  panic (out-of-range slice indexing, `.expect`) is modelled with the
  four-outcome type `ROut`, whose `.panic` constructor stands for an abort
  and `.diverge` for non-termination of a loop.
* The helper traits `U5Conversions`/`U64VecU5Conversions`/`U8Conversions`
  live in the repository's `utils` module, which is not among the given
  sources; those functions are modelled from the spec (each is marked
  `Modelled from the spec:`).  Everything else is translated from
  `src/tag.rs` / `src/lnaddr.rs` directly.
-/

/-- The error taxonomy of `types::Error` (the `types` module is not among the
given sources).  Modelled from the spec: §7 lists the variant tags; payload
strings are dropped. -/
inductive Err : Type where
  | invalidLength
  | invalidU5
  | invalidPadding
  | invalidAmount
  | fromUTF8Err
  | overflow
  deriving DecidableEq, Repr

/-- Outcome of running a piece of Rust code: a returned value, a returned
error value, a panic (abort), or non-termination. -/
inductive ROut (α : Type) : Type where
  | ok (a : α)
  | err (e : Err)
  | panic
  | diverge
  deriving DecidableEq, Repr

instance {ε α : Type} [DecidableEq ε] [DecidableEq α] : DecidableEq (Except ε α) := fun x y =>
  match x, y with
  | .ok a, .ok b =>
      if h : a = b then .isTrue (by rw [h]) else .isFalse (fun hc => by cases hc; exact h rfl)
  | .error a, .error b =>
      if h : a = b then .isTrue (by rw [h]) else .isFalse (fun hc => by cases hc; exact h rfl)
  | .ok _, .error _ => .isFalse (fun hc => Except.noConfusion hc)
  | .error _, .ok _ => .isFalse (fun hc => Except.noConfusion hc)

/-- `(l.drop a).take (b - a)`: the Rust slice `l[a..b]` (the in-bounds case). -/
def lslice (l : List Nat) (a b : Nat) : List Nat :=
  (l.drop a).take (b - a)

/-- The 8 bits of a byte, most significant first. -/
def byteToBits (n : Nat) : List Bool :=
  [n.testBit 7, n.testBit 6, n.testBit 5, n.testBit 4,
   n.testBit 3, n.testBit 2, n.testBit 1, n.testBit 0]

/-- The 5 bits of a bech32 symbol, most significant first. -/
def u5ToBits (n : Nat) : List Bool :=
  [n.testBit 4, n.testBit 3, n.testBit 2, n.testBit 1, n.testBit 0]

/-- Value of a bit list, most significant bit first. -/
def bitsVal (l : List Bool) : Nat :=
  l.foldl (fun a b => 2 * a + (if b then 1 else 0)) 0

/-- The bit-stream of a byte string, MSB first. -/
def bytesBits : List Nat → List Bool
  | [] => []
  | b :: t => byteToBits b ++ bytesBits t

/-- The bit-stream of a sequence of 5-bit symbols, MSB first. -/
def u5Bits : List Nat → List Bool
  | [] => []
  | s :: t => u5ToBits s ++ u5Bits t

/-- Group a bit stream into 5-bit symbols, zero-padding the final short
group on the right. -/
def group5 : List Bool → List Nat
  | [] => []
  | [a] => [bitsVal [a, false, false, false, false]]
  | [a, b] => [bitsVal [a, b, false, false, false]]
  | [a, b, c] => [bitsVal [a, b, c, false, false]]
  | [a, b, c, d] => [bitsVal [a, b, c, d, false]]
  | a :: b :: c :: d :: e :: rest => bitsVal [a, b, c, d, e] :: group5 rest

/-- Group a bit stream into bytes, discarding the final short group. -/
def group8 : List Bool → List Nat
  | a :: b :: c :: d :: e :: f :: g :: h :: rest =>
      bitsVal [a, b, c, d, e, f, g, h] :: group8 rest
  | _ => []

/-- Modelled from the spec: `utils::U8Conversions::to_u5_vec` (§4.1
`bytes_to_u5`): treat the input as a continuous bit-stream MSB-first, group
into 5-bit chunks, left-padding the final short group with zero bits; always
emits `⌈8·len/5⌉` symbols.  The Rust version returns `Result` but never
fails; callers pass `true` (pad). -/
def to_u5_vec (b : List Nat) : List Nat :=
  group5 (bytesBits b)

/-- Modelled from the spec: `utils::U5Conversions::to_u8_vec` (§4.1
`u5_to_bytes`): consume the symbols MSB-first and emit bytes, discarding up
to 4 trailing bits; fail `InvalidU5` if any symbol exceeds 31, and (in
strict mode only) `InvalidPadding` if the discarded bits are nonzero.  The
parser always calls this with `strict = false`. -/
def to_u8_vec (strict : Bool) (u : List Nat) : Except Err (List Nat) :=
  if u.any (fun s => decide (31 < s)) then .error .invalidU5
  else
    let bits := u5Bits u
    let discarded := bits.drop (8 * (bits.length / 8))
    if strict && discarded.any (fun b => b) then .error .invalidPadding
    else .ok (group8 bits)

/-- Fuel-based worker for `natToU5`; the fuel is an upper bound on the value,
so the out-of-fuel branch is never reached. -/
def natToU5Aux : Nat → Nat → List Nat
  | _, 0 => []
  | 0, _ + 1 => []
  | fuel + 1, n + 1 => natToU5Aux fuel ((n + 1) / 32) ++ [(n + 1) % 32]

/-- Modelled from the spec: `utils::U64VecU5Conversions::to_u5_vec` (§4.1
`u64_to_u5`): the minimal big-endian base-32 digit sequence, empty for 0. -/
def natToU5 (n : Nat) : List Nat :=
  natToU5Aux n n

/-- `natToU5Aux` ignores the fuel as long as it dominates the value. -/
theorem natToU5Aux_fuel : ∀ fuel fuel' n, n ≤ fuel → n ≤ fuel' →
    natToU5Aux fuel n = natToU5Aux fuel' n := by
  intro fuel
  induction fuel with
  | zero =>
      intro fuel' n h _
      interval_cases n
      cases fuel' <;> rfl
  | succ f ih =>
    intro fuel' n hf hf'
    match n, fuel' with
    | 0, fuel' => cases fuel' <;> rfl
    | n + 1, 0 => omega
    | n + 1, f' + 1 =>
      show natToU5Aux f ((n + 1) / 32) ++ _ = natToU5Aux f' ((n + 1) / 32) ++ _
      rw [ih f' ((n + 1) / 32) (by omega) (by omega)]

/-- The recursive characterization of `natToU5` on positive input. -/
theorem natToU5_pos (n : Nat) (h : n ≠ 0) :
    natToU5 n = natToU5 (n / 32) ++ [n % 32] := by
  match n, h with
  | n + 1, _ =>
    show natToU5Aux (n + 1) (n + 1) = _
    show natToU5Aux n ((n + 1) / 32) ++ [(n + 1) % 32] = _
    rw [natToU5Aux_fuel n ((n + 1) / 32) ((n + 1) / 32) (by omega) (le_refl _)]
    rfl

/-- Modelled from the spec: `utils::U5Conversions::u5_vec_to_u64` (§4.1
`u5_to_u64`): fold the first `len` symbols MSB-first with base 32 into a
`u64` (wrapping). -/
def u5VecToU64 (l : List Nat) (len : Nat) : Nat :=
  ((l.take len).foldl (fun a d => 32 * a + d) 0) % 2 ^ 64

-- Sanity examples tying the spec's literal §8 scenarios to the model.
example : to_u5_vec [0xFF, 0xFF] = [31, 31, 31, 16] := by decide
example : to_u8_vec false [31, 31, 31, 16] = .ok [0xFF, 0xFF] := by decide
example : to_u8_vec true [31, 31, 31, 17] = .error .invalidPadding := by decide
example : natToU5 60 = [1, 28] := by decide
example : u5VecToU64 [1, 28] 2 = 60 := by decide

/-- A UTF-8 continuation byte (`0x80..=0xBF`). -/
def contB (c : Nat) : Bool :=
  decide (0x80 ≤ c) && decide (c ≤ 0xBF)

/-- Validity of a byte sequence as UTF-8, per RFC 3629: models the success
condition of Rust's `String::from_utf8` (standard library, external to the
repository). -/
def validUtf8 : List Nat → Bool
  | [] => true
  | b :: rest =>
    if b < 0x80 then validUtf8 rest
    else if 0xC2 ≤ b ∧ b ≤ 0xDF then
      match rest with
      | c1 :: r => contB c1 && validUtf8 r
      | [] => false
    else if b = 0xE0 then
      match rest with
      | c1 :: c2 :: r => decide (0xA0 ≤ c1) && decide (c1 ≤ 0xBF) && contB c2 && validUtf8 r
      | _ => false
    else if (0xE1 ≤ b ∧ b ≤ 0xEC) ∨ b = 0xEE ∨ b = 0xEF then
      match rest with
      | c1 :: c2 :: r => contB c1 && contB c2 && validUtf8 r
      | _ => false
    else if b = 0xED then
      match rest with
      | c1 :: c2 :: r => decide (0x80 ≤ c1) && decide (c1 ≤ 0x9F) && contB c2 && validUtf8 r
      | _ => false
    else if b = 0xF0 then
      match rest with
      | c1 :: c2 :: c3 :: r =>
          decide (0x90 ≤ c1) && decide (c1 ≤ 0xBF) && contB c2 && contB c3 && validUtf8 r
      | _ => false
    else if 0xF1 ≤ b ∧ b ≤ 0xF3 then
      match rest with
      | c1 :: c2 :: c3 :: r => contB c1 && contB c2 && contB c3 && validUtf8 r
      | _ => false
    else if b = 0xF4 then
      match rest with
      | c1 :: c2 :: c3 :: r =>
          decide (0x80 ≤ c1) && decide (c1 ≤ 0x8F) && contB c2 && contB c3 && validUtf8 r
      | _ => false
    else false

/-- `ExtraHop` (src/tag.rs:249-262): one entry of a private route. -/
structure ExtraHop : Type where
  pub_key : List Nat
  short_channel_id : Nat
  fee_base_msat : Nat
  fee_proportional_millionths : Nat
  cltv_expiry_delta : Nat
  deriving DecidableEq, Repr

/-- Big-endian bytes of a `u64` (`byteorder::WriteBytesExt::write_u64`). -/
def be64 (n : Nat) : List Nat :=
  [n / 2 ^ 56 % 256, n / 2 ^ 48 % 256, n / 2 ^ 40 % 256, n / 2 ^ 32 % 256,
   n / 2 ^ 24 % 256, n / 2 ^ 16 % 256, n / 2 ^ 8 % 256, n % 256]

/-- Big-endian bytes of a `u32`. -/
def be32 (n : Nat) : List Nat :=
  [n / 2 ^ 24 % 256, n / 2 ^ 16 % 256, n / 2 ^ 8 % 256, n % 256]

/-- Big-endian bytes of a `u16`. -/
def be16 (n : Nat) : List Nat :=
  [n / 2 ^ 8 % 256, n % 256]

/-- Big-endian read of a byte list (`byteorder::BigEndian::read_uXX`). -/
def beRead (l : List Nat) : Nat :=
  l.foldl (fun a b => 256 * a + b) 0

/-- `ExtraHop::pack` (src/tag.rs:269-276): 33-byte public key, then the four
numeric fields big-endian.  The Rust version returns `Result` but writing to
a `Vec` cannot fail, so it is modelled as the plain byte list. -/
def ExtraHop.pack (h : ExtraHop) : List Nat :=
  h.pub_key ++ be64 h.short_channel_id ++ be32 h.fee_base_msat ++
    be32 h.fee_proportional_millionths ++ be16 h.cltv_expiry_delta

/-- The field reads of `ExtraHop::parse` (src/tag.rs:279-292), defined on the
in-bounds case. -/
def ExtraHop.parseCore (data : List Nat) : ExtraHop :=
  { pub_key := lslice data 0 33
    short_channel_id := beRead (lslice data 33 41)
    fee_base_msat := beRead (lslice data 41 45)
    fee_proportional_millionths := beRead (lslice data 45 49)
    cltv_expiry_delta := beRead (lslice data 49 51) }

/-- `ExtraHop::parse` (src/tag.rs:279-292): reads the slices
`data[0..33]`, `data[33..41]`, `data[41..45]`, `data[45..49]`, `data[49..51]`
unconditionally; they are all in bounds exactly when the input holds at least
51 bytes, and otherwise the first out-of-bounds slice panics. -/
def ExtraHop.parse (data : List Nat) : ROut ExtraHop :=
  if 51 ≤ data.length then .ok (ExtraHop.parseCore data) else .panic

/-- Fuel-based worker for `ExtraHop.parse_all`; the fuel bounds the number of
51-byte chunks, so the out-of-fuel branch is never reached. -/
def ExtraHop.parseAllAux : Nat → List Nat → List ExtraHop
  | 0, _ => []
  | fuel + 1, data =>
    if 51 ≤ data.length then
      ExtraHop.parseCore (data.take 51) :: ExtraHop.parseAllAux fuel (data.drop 51)
    else []

/-- `ExtraHop::parse_all` (src/tag.rs:295-302): split into 51-byte chunks,
keep only the complete ones, and parse each. -/
def ExtraHop.parse_all (data : List Nat) : List ExtraHop :=
  ExtraHop.parseAllAux data.length data

/-- `Tag` (src/tag.rs:18-84).  A Rust `String` is its UTF-8 bytes, so
`description` carries the byte list. -/
inductive Tag : Type where
  | paymentHash (hash : List Nat)
  | description (text : List Nat)
  | descriptionHash (hash : List Nat)
  | fallbackAddress (version : Nat) (hash : List Nat)
  | expiry (seconds : Nat)
  | minFinalCltvExpiry (blocks : Nat)
  | routingInfo (path : List ExtraHop)
  | unknownTag (tag : Nat) (bytes : List Nat)
  deriving DecidableEq, Repr

namespace Tag

/-- `Tag::vec_u5_aux` (src/tag.rs:141-151): prepend the tag symbol and the
two length symbols.  `(len / 32) as u8` truncates, hence the `% 256`
(`(len % 32) as u8` is already below 256). -/
def vec_u5_aux (value : Nat) (data : Except Err (List Nat)) : Except Err (List Nat) :=
  match data with
  | .ok bytes => .ok (value :: bytes.length / 32 % 256 :: bytes.length % 32 :: bytes)
  | .error e => .error e

/-- `Tag::write_size` (src/tag.rs:154-164): the size as exactly two 5-bit
symbols, or `InvalidLength` if its minimal base-32 form needs more. -/
def write_size (size : Nat) : Except Err (List Nat) :=
  let output := natToU5 size
  match output.length with
  | 0 => .ok [0, 0]
  | 1 => .ok (0 :: output)
  | 2 => .ok output
  | _ => .error .invalidLength

/-- Concatenation of the packed hops (the `fold_results` accumulation in the
`RoutingInfo` arm of `to_vec_u5`; `ExtraHop::pack` cannot fail). -/
def packsConcat : List ExtraHop → List Nat
  | [] => []
  | h :: t => ExtraHop.pack h ++ packsConcat t

/-- `Tag::to_vec_u5` (src/tag.rs:88-139).  Bech32 letter values:
`p=1, d=13, h=23, f=9, x=6, c=24, r=3`. -/
def to_vec_u5 : Tag → Except Err (List Nat)
  | .paymentHash hash => vec_u5_aux 1 (.ok (to_u5_vec hash))
  | .description text => vec_u5_aux 13 (.ok (to_u5_vec text))
  | .descriptionHash hash => vec_u5_aux 23 (.ok (to_u5_vec hash))
  | .fallbackAddress version hash => vec_u5_aux 9 (.ok (version :: to_u5_vec hash))
  | .expiry seconds =>
      (write_size (natToU5 seconds).length).map (fun size => 6 :: (size ++ natToU5 seconds))
  | .minFinalCltvExpiry blocks =>
      (write_size (natToU5 blocks).length).map (fun size => 24 :: (size ++ natToU5 blocks))
  | .routingInfo path => vec_u5_aux 3 (.ok (to_u5_vec (packsConcat path)))
  | .unknownTag tag bytes =>
      (write_size bytes.length).map (fun size => tag :: (size ++ bytes))

/-- The declared data length read by `Tag::parse` (src/tag.rs:174-175):
`(input[1] * 32 + input[2]) as usize` in `u8` arithmetic, hence the `% 256`. -/
def declaredLen (input : List Nat) : Nat :=
  (input.getD 1 0 * 32 + input.getD 2 0) % 256

/-- `Tag::parse` (src/tag.rs:169-227).  The length guard is the source's
(buggy) `len <= input.len() + 3`.  Out-of-range slice indexing is a `.panic`
outcome. -/
def parse (input : List Nat) : ROut Tag :=
  match input.head? with
  | none => .err .invalidLength
  | some tag =>
    if 3 ≤ input.length then
      let len := declaredLen input
      if len ≤ input.length + 3 then
        if tag = 1 then -- 'p'
          if 55 ≤ input.length then
            match to_u8_vec false (lslice input 3 55) with
            | .ok hash => .ok (.paymentHash hash)
            | .error e => .err e
          else .panic
        else if tag = 13 then -- 'd'
          if len + 3 ≤ input.length then
            match to_u8_vec false (lslice input 3 (len + 3)) with
            | .ok v => if validUtf8 v then .ok (.description v) else .err .fromUTF8Err
            | .error e => .err e
          else .panic
        else if tag = 23 then -- 'h'
          if len + 3 ≤ input.length then
            match to_u8_vec false (lslice input 3 (len + 3)) with
            | .ok hash => .ok (.descriptionHash hash)
            | .error e => .err e
          else .panic
        else if tag = 9 then -- 'f'
          if 3 < input.length then
            let version := input.getD 3 0
            if 1 ≤ len ∧ len + 3 ≤ input.length then
              let hashRes := to_u8_vec false (lslice input 4 (len + 3))
              if version ≤ 18 then
                match hashRes with
                | .ok hash => .ok (.fallbackAddress version hash)
                | .error e => .err e
              else .ok (.unknownTag tag (lslice input 3 (len + 3)))
            else .panic
          else .panic
        else if tag = 3 then -- 'r'
          if len + 3 ≤ input.length then
            match to_u8_vec false (lslice input 3 (len + 3)) with
            | .ok data => .ok (.routingInfo (ExtraHop.parse_all data))
            | .error e => .err e
          else .panic
        else if tag = 6 then -- 'x'
          if len + 3 ≤ input.length then
            .ok (.expiry (u5VecToU64 (lslice input 3 (len + 3)) len))
          else .panic
        else if tag = 24 then -- 'c'
          if len + 3 ≤ input.length then
            .ok (.minFinalCltvExpiry (u5VecToU64 (lslice input 3 (len + 3)) len))
          else .panic
        else
          if len + 3 ≤ input.length then
            .ok (.unknownTag tag (lslice input 3 (len + 3)))
          else .panic
      else .err .invalidLength
    else .err .invalidLength

/-- The declared raw-tag length (including the 3 header symbols) read by the
loop of `Tag::parse_all` (src/tag.rs:236): `(data[1] * 32 + data[2] + 3) as
usize`, which is `u8` arithmetic, hence the `% 256`. -/
def rawTagLen (data : List Nat) : Nat :=
  (data.getD 1 0 * 32 + data.getD 2 0 + 3) % 256

/-- Fuel-based worker for the raw-tag extraction loop of `Tag::parse_all`
(src/tag.rs:229-243).  When `rawTagLen` wraps to 0 the Rust loop never
advances, modelled as `.diverge`.  Each productive step consumes at least one
symbol, so fuel `data.length` always suffices and the fuel-0 branch
coincides with the loop exit. -/
def splitTagsAux : Nat → List Nat → ROut (List (List Nat))
  | 0, _ => .ok []
  | fuel + 1, data =>
    if 3 < data.length then
      if rawTagLen data = 0 then .diverge
      else if rawTagLen data ≤ data.length then
        match splitTagsAux fuel (data.drop (rawTagLen data)) with
        | .ok r => .ok (data.take (rawTagLen data) :: r)
        | other => other
      else .err .invalidLength
    else .ok []

/-- The raw-tag extraction loop of `Tag::parse_all`. -/
def splitTags (data : List Nat) : ROut (List (List Nat)) :=
  splitTagsAux data.length data

/-- The `flat_map(Tag::parse)` collection of `Tag::parse_all`
(src/tag.rs:244): `Result`'s iterator yields only the `Ok` value, so a tag
whose parse fails is silently dropped; a panic inside `Tag::parse` still
aborts. -/
def collectTags : List (List Nat) → ROut (List Tag)
  | [] => .ok []
  | r :: rest =>
    match parse r with
    | .ok t =>
      match collectTags rest with
      | .ok ts => .ok (t :: ts)
      | other => other
    | .err _ => collectTags rest
    | .panic => .panic
    | .diverge => .diverge

/-- `Tag::parse_all` (src/tag.rs:229-246). -/
def parse_all (input : List Nat) : ROut (List Tag) :=
  match splitTags input with
  | .ok raws => collectTags raws
  | .err e => .err e
  | .panic => .panic
  | .diverge => .diverge

end Tag
-- The test vectors of src/tag.rs (mod test) evaluated on the model.
set_option maxRecDepth 10000
example : Tag.parse [1, 1, 20, 0, 0, 0, 16, 4, 0, 24, 4, 0, 20, 3, 0, 14, 2, 0, 9, 0, 0, 0, 16, 4, 0, 24, 4, 0, 20, 3, 0, 14, 2, 0, 9, 0, 0, 0, 16, 4, 0, 24, 4, 0, 20, 3, 0, 14, 2, 0, 9, 0, 4, 1, 0] = .ok (.paymentHash [0, 1, 2, 3, 4, 5, 6, 7, 8, 9, 0, 1, 2, 3, 4, 5, 6, 7, 8, 9, 0, 1, 2, 3, 4, 5, 6, 7, 8, 9, 1, 2]) := by decide
example : Tag.parse [13, 1, 31, 10, 1, 22, 6, 10, 24, 11, 19, 12, 20, 16, 6, 6, 27, 27, 14, 14, 13, 20, 22, 8, 25, 11, 18, 4, 1, 25, 23, 10, 28, 3, 16, 13, 29, 25, 7, 8, 26, 11, 14, 12, 28, 16, 7, 8, 26, 3, 9, 14, 12, 16, 7, 0, 28, 19, 15, 13, 9, 18, 22, 6, 29, 0] = .ok (.description [80, 108, 101, 97, 115, 101, 32, 99, 111, 110, 115, 105, 100, 101, 114, 32, 115, 117, 112, 112, 111, 114, 116, 105, 110, 103, 32, 116, 104, 105, 115, 32, 112, 114, 111, 106, 101, 99, 116]) := by decide
example : Tag.parse [23, 1, 20, 7, 4, 18, 27, 13, 29, 19, 30, 5, 16, 26, 0, 0, 13, 23, 13, 2, 8, 4, 19, 27, 21, 2, 14, 0, 13, 20, 13, 30, 6, 27, 14, 20, 9, 22, 5, 7, 22, 31, 4, 16, 4, 15, 21, 17, 31, 10, 29, 23, 3, 0, 16] = .ok (.descriptionHash [57, 37, 182, 246, 126, 44, 52, 0, 54, 237, 18, 9, 61, 212, 78, 3, 104, 223, 27, 110, 162, 108, 83, 219, 228, 129, 31, 88, 253, 93, 184, 193]) := by decide
example : Tag.parse [9, 1, 1, 17, 6, 5, 25, 11, 10, 25, 10, 15, 12, 26, 1, 28, 17, 30, 24, 20, 13, 5, 12, 29, 6, 17, 30, 14, 6, 0, 30, 10, 28, 19, 5, 7] = .ok (.fallbackAddress 17 [49, 114, 181, 101, 79, 102, 131, 200, 251, 20, 105, 89, 211, 71, 206, 48, 60, 174, 76, 167]) := by decide
example : Tag.parse [6, 0, 2, 1, 28] = .ok (.expiry 60) := by decide
example : Tag.parse [24, 0, 1, 12] = .ok (.minFinalCltvExpiry 12) := by decide
example : Tag.parse [3, 5, 4, 0, 10, 15, 0, 7, 10, 8, 1, 23, 1, 10, 19, 9, 31, 24, 30, 18, 11, 2, 3, 24, 29, 2, 3, 3, 29, 30, 14, 14, 8, 2, 6, 0, 24, 7, 28, 30, 30, 20, 21, 24, 13, 31, 1, 9, 3, 27, 24, 24, 29, 25, 5, 10, 0, 8, 2, 0, 12, 2, 0, 10, 1, 16, 7, 1, 0, 0, 0, 0, 0, 0, 1, 0, 0, 0, 0, 0, 5, 0, 0, 0, 12, 1, 25, 28, 0, 29, 9, 0, 6, 28, 5, 10, 13, 7, 31, 3, 26, 9, 12, 8, 15, 3, 20, 8, 12, 15, 23, 25, 25, 25, 0, 8, 24, 3, 0, 31, 19, 27, 26, 18, 23, 1, 23, 28, 5, 4, 15, 15, 3, 3, 23, 4, 21, 8, 3, 0, 16, 2, 16, 12, 1, 24, 8, 1, 4, 5, 0, 0, 0, 0, 0, 0, 8, 0, 0, 0, 0, 0, 30, 0, 0, 2, 0] = .ok (.routingInfo
    [{ pub_key := [2, 158, 3, 169, 1, 184, 85, 52, 255, 30, 146, 196, 60, 116, 67, 31, 124, 231, 32, 70, 6, 15, 207, 122, 149, 195, 126, 20, 143, 120, 199, 114, 85],
        short_channel_id := 72623859790382856, fee_base_msat := 1,
        fee_proportional_millionths := 20, cltv_expiry_delta := 3 },
     { pub_key := [3, 158, 3, 169, 1, 184, 85, 52, 255, 30, 146, 196, 60, 116, 67, 31, 124, 231, 32, 70, 6, 15, 207, 122, 149, 195, 126, 20, 143, 120, 199, 114, 85],
        short_channel_id := 217304205466536202, fee_base_msat := 2,
        fee_proportional_millionths := 30, cltv_expiry_delta := 4 }]) := by decide

-- ### Bit-level lemmas for the 5-bit/8-bit conversions

theorem u5ToBits_bitsVal : ∀ a b c d e : Bool,
    u5ToBits (bitsVal [a, b, c, d, e]) = [a, b, c, d, e] := by decide

theorem bitsVal5_lt : ∀ a b c d e : Bool, bitsVal [a, b, c, d, e] < 32 := by decide

theorem byte_bitsVal_fin : ∀ i : Fin 256, bitsVal (byteToBits i.val) = i.val := by decide

theorem byte_bitsVal (x : Nat) (h : x < 256) : bitsVal (byteToBits x) = x :=
  byte_bitsVal_fin ⟨x, h⟩

theorem u5Bits_append (l₁ l₂ : List Nat) : u5Bits (l₁ ++ l₂) = u5Bits l₁ ++ u5Bits l₂ := by
  induction l₁ with
  | nil => rfl
  | cons s t ih => simp [u5Bits, ih]

theorem u5Bits_group5 (l : List Bool) :
    u5Bits (group5 l) = l ++ List.replicate ((5 - l.length % 5) % 5) false := by
  induction l using group5.induct with
  | case1 => rfl
  | case2 a =>
      show u5ToBits (bitsVal [a, false, false, false, false]) ++ u5Bits [] = _
      rw [u5ToBits_bitsVal]; rfl
  | case3 a b =>
      show u5ToBits (bitsVal [a, b, false, false, false]) ++ u5Bits [] = _
      rw [u5ToBits_bitsVal]; rfl
  | case4 a b c =>
      show u5ToBits (bitsVal [a, b, c, false, false]) ++ u5Bits [] = _
      rw [u5ToBits_bitsVal]; rfl
  | case5 a b c d =>
      show u5ToBits (bitsVal [a, b, c, d, false]) ++ u5Bits [] = _
      rw [u5ToBits_bitsVal]; rfl
  | case6 a b c d e rest ih =>
      show u5ToBits (bitsVal [a, b, c, d, e]) ++ u5Bits (group5 rest) = _
      rw [u5ToBits_bitsVal, ih]
      simp [List.length_cons]
      congr 2
      omega

theorem group8_small : ∀ l : List Bool, l.length < 8 → group8 l = [] := by
  intro l hl
  match l, hl with
  | [], _ => rfl
  | [a], _ => rfl
  | [a, b], _ => rfl
  | [a, b, c], _ => rfl
  | [a, b, c, d], _ => rfl
  | [a, b, c, d, e], _ => rfl
  | [a, b, c, d, e, f], _ => rfl
  | [a, b, c, d, e, f, g], _ => rfl
  | a :: b :: c :: d :: e :: f :: g :: h :: t, hl => simp [List.length] at hl; omega

theorem group8_byteToBits (x : Nat) (h : x < 256) (rest : List Bool) :
    group8 (byteToBits x ++ rest) = x :: group8 rest := by
  simp only [byteToBits, List.cons_append, List.nil_append, group8]
  rw [show [x.testBit 7, x.testBit 6, x.testBit 5, x.testBit 4, x.testBit 3, x.testBit 2,
        x.testBit 1, x.testBit 0] = byteToBits x from rfl, byte_bitsVal x h]
  simp

theorem bytesBits_length (b : List Nat) : (bytesBits b).length = 8 * b.length := by
  induction b with
  | nil => rfl
  | cons x t ih => simp [bytesBits, byteToBits, ih]; omega

theorem group8_bytesBits_pad (b : List Nat) (pad : List Bool)
    (hb : ∀ x ∈ b, x < 256) (hp : pad.length < 8) :
    group8 (bytesBits b ++ pad) = b := by
  induction b with
  | nil => exact group8_small pad hp
  | cons x t ih =>
      have hx : x < 256 := hb x (by simp)
      show group8 ((byteToBits x ++ bytesBits t) ++ pad) = x :: t
      rw [List.append_assoc, group8_byteToBits x hx]
      rw [ih (fun y hy => hb y (by simp [hy]))]

theorem group5_no_big (l : List Bool) : (group5 l).any (fun s => decide (31 < s)) = false := by
  induction l using group5.induct with
  | case1 => rfl
  | case2 a =>
      have h := bitsVal5_lt a false false false false
      simp [group5, List.any]; omega
  | case3 a b =>
      have h := bitsVal5_lt a b false false false
      simp [group5, List.any]; omega
  | case4 a b c =>
      have h := bitsVal5_lt a b c false false
      simp [group5, List.any]; omega
  | case5 a b c d =>
      have h := bitsVal5_lt a b c d false
      simp [group5, List.any]; omega
  | case6 a b c d e rest ih =>
      have h := bitsVal5_lt a b c d e
      simp [group5, List.any_cons, ih]; omega

theorem group5_length (l : List Bool) : (group5 l).length = (l.length + 4) / 5 := by
  induction l using group5.induct with
  | case1 => rfl
  | case2 a => simp [group5]
  | case3 a b => simp [group5]
  | case4 a b c => simp [group5]
  | case5 a b c d => simp [group5]
  | case6 a b c d e rest ih => simp [group5, List.length_cons, ih]; omega

/-- Core packing round trip: lenient 5-bit to 8-bit conversion inverts the
8-bit to 5-bit conversion on genuine bytes. -/
theorem roundtrip58 (b : List Nat) (hb : ∀ x ∈ b, x < 256) :
    to_u8_vec false (to_u5_vec b) = .ok b := by
  unfold to_u8_vec to_u5_vec
  rw [group5_no_big]
  simp only [Bool.false_eq_true, if_false, Bool.false_and]
  rw [u5Bits_group5]
  rw [group8_bytesBits_pad b _ hb (by simp [List.length_replicate]; omega)]

/-- Symbol count of the byte-to-u5 conversion: `⌈8n/5⌉`. -/
theorem to_u5_vec_length (b : List Nat) : (to_u5_vec b).length = (8 * b.length + 4) / 5 := by
  unfold to_u5_vec
  rw [group5_length, bytesBits_length]

-- ### Lemmas about the base-32 integer encoding and the size field

theorem natToU5_fold (n : Nat) :
    (natToU5 n).foldl (fun a d => 32 * a + d) 0 = n := by
  induction n using Nat.strong_induction_on with
  | _ n ih =>
    by_cases h : n = 0
    · subst h; rfl
    · rw [natToU5_pos n h, List.foldl_append]
      rw [ih (n / 32) (Nat.div_lt_self (Nat.pos_of_ne_zero h) (by omega))]
      show 32 * (n / 32) + n % 32 = n
      omega

theorem natToU5_digits_lt (n : Nat) : ∀ d ∈ natToU5 n, d < 32 := by
  induction n using Nat.strong_induction_on with
  | _ n ih =>
    by_cases h : n = 0
    · subst h; intro d hd; cases hd
    · rw [natToU5_pos n h]
      intro d hd
      rcases List.mem_append.mp hd with h1 | h1
      · exact ih (n / 32) (Nat.div_lt_self (Nat.pos_of_ne_zero h) (by omega)) d h1
      · simp at h1; omega

theorem natToU5_one (n : Nat) (h1 : 1 ≤ n) (h2 : n < 32) : natToU5 n = [n] := by
  rw [natToU5_pos n (by omega), show n / 32 = 0 by omega, show n % 32 = n by omega]
  rfl

theorem natToU5_two (n : Nat) (h1 : 32 ≤ n) (h2 : n < 1024) :
    natToU5 n = [n / 32, n % 32] := by
  rw [natToU5_pos n (by omega), natToU5_one (n / 32) (by omega) (by omega)]
  rfl

theorem natToU5_len3 (n : Nat) (h : 1024 ≤ n) : 3 ≤ (natToU5 n).length := by
  rw [natToU5_pos n (by omega), natToU5_pos (n / 32) (by omega),
    natToU5_pos (n / 32 / 32) (by omega)]
  simp [List.length_append]

theorem write_size_lt (size : Nat) (h : size < 1024) :
    Tag.write_size size = .ok [size / 32, size % 32] := by
  unfold Tag.write_size
  rcases Nat.lt_or_ge size 1 with h1 | h1
  · have : size = 0 := by omega
    subst this; rfl
  · rcases Nat.lt_or_ge size 32 with h2 | h2
    · rw [natToU5_one size h1 h2]
      simp [show size / 32 = 0 by omega, show size % 32 = size by omega]
    · rw [natToU5_two size h2 h]
      simp

theorem write_size_ge (size : Nat) (h : 1024 ≤ size) :
    Tag.write_size size = .error .invalidLength := by
  have h3 := natToU5_len3 size h
  unfold Tag.write_size
  obtain ⟨k, hk⟩ : ∃ k, (natToU5 size).length = k + 3 := ⟨(natToU5 size).length - 3, by omega⟩
  simp [hk]

-- ### Big-endian field lemmas

theorem beRead_be64 (n : Nat) (h : n < 2 ^ 64) : beRead (be64 n) = n := by
  simp [beRead, be64, List.foldl]; omega

theorem beRead_be32 (n : Nat) (h : n < 2 ^ 32) : beRead (be32 n) = n := by
  simp [beRead, be32, List.foldl]; omega

theorem beRead_be16 (n : Nat) (h : n < 2 ^ 16) : beRead (be16 n) = n := by
  simp [beRead, be16, List.foldl]; omega

-- ### ExtraHop framing

/-- The representation invariants the Rust types give an `ExtraHop`:
`pub_key` is a 33-byte `Vec<u8>` and the numeric fields are `u64`, `u32`,
`u32`, `u16`. -/
def HopGood (hp : ExtraHop) : Prop :=
  hp.pub_key.length = 33 ∧ hp.short_channel_id < 2 ^ 64 ∧ hp.fee_base_msat < 2 ^ 32 ∧
    hp.fee_proportional_millionths < 2 ^ 32 ∧ hp.cltv_expiry_delta < 2 ^ 16

theorem pack_length (hp : ExtraHop) (hpk : hp.pub_key.length = 33) :
    (ExtraHop.pack hp).length = 51 := by
  simp [ExtraHop.pack, be64, be32, be16, hpk]

theorem pack_bytes_lt (hp : ExtraHop) (hpk : ∀ x ∈ hp.pub_key, x < 256) :
    ∀ x ∈ ExtraHop.pack hp, x < 256 := by
  intro x hx
  simp only [ExtraHop.pack, List.mem_append] at hx
  rcases hx with ((((hx | hx) | hx) | hx) | hx)
  · exact hpk x hx
  · simp [be64] at hx; rcases hx with h|h|h|h|h|h|h|h <;> omega
  · simp [be32] at hx; rcases hx with h|h|h|h <;> omega
  · simp [be32] at hx; rcases hx with h|h|h|h <;> omega
  · simp [be16] at hx; rcases hx with h|h <;> omega

theorem parseCore_pack (hp : ExtraHop) (hg : HopGood hp) :
    ExtraHop.parseCore (ExtraHop.pack hp) = hp := by
  obtain ⟨pk, scid, fb, fp, cd⟩ := hp
  obtain ⟨hpk, h1, h2, h3, h4⟩ := hg
  simp only at hpk h1 h2 h3 h4
  have e : ExtraHop.pack ⟨pk, scid, fb, fp, cd⟩ =
      pk ++ (be64 scid ++ (be32 fb ++ (be32 fp ++ be16 cd))) := by
    simp [ExtraHop.pack, List.append_assoc]
  have d33 : (ExtraHop.pack ⟨pk, scid, fb, fp, cd⟩).drop 33 =
      be64 scid ++ (be32 fb ++ (be32 fp ++ be16 cd)) := by
    rw [e]; exact List.drop_left' hpk
  have d41 : (ExtraHop.pack ⟨pk, scid, fb, fp, cd⟩).drop 41 =
      be32 fb ++ (be32 fp ++ be16 cd) := by
    rw [show (41 : Nat) = 33 + 8 by rfl, ← List.drop_drop, d33]
    exact List.drop_left' (by simp [be64])
  have d45 : (ExtraHop.pack ⟨pk, scid, fb, fp, cd⟩).drop 45 =
      be32 fp ++ be16 cd := by
    rw [show (45 : Nat) = 41 + 4 by rfl, ← List.drop_drop, d41]
    exact List.drop_left' (by simp [be32])
  have d49 : (ExtraHop.pack ⟨pk, scid, fb, fp, cd⟩).drop 49 = be16 cd := by
    rw [show (49 : Nat) = 45 + 4 by rfl, ← List.drop_drop, d45]
    exact List.drop_left' (by simp [be32])
  have s1 : lslice (ExtraHop.pack ⟨pk, scid, fb, fp, cd⟩) 0 33 = pk := by
    unfold lslice
    rw [List.drop_zero, e]
    exact List.take_left' hpk
  have s2 : lslice (ExtraHop.pack ⟨pk, scid, fb, fp, cd⟩) 33 41 = be64 scid := by
    unfold lslice
    rw [d33, show (41 : Nat) - 33 = 8 by rfl]
    exact List.take_left' (by simp [be64])
  have s3 : lslice (ExtraHop.pack ⟨pk, scid, fb, fp, cd⟩) 41 45 = be32 fb := by
    unfold lslice
    rw [d41, show (45 : Nat) - 41 = 4 by rfl]
    exact List.take_left' (by simp [be32])
  have s4 : lslice (ExtraHop.pack ⟨pk, scid, fb, fp, cd⟩) 45 49 = be32 fp := by
    unfold lslice
    rw [d45, show (49 : Nat) - 45 = 4 by rfl]
    exact List.take_left' (by simp [be32])
  have s5 : lslice (ExtraHop.pack ⟨pk, scid, fb, fp, cd⟩) 49 51 = be16 cd := by
    unfold lslice
    rw [d49]
    rfl
  unfold ExtraHop.parseCore
  rw [s1, s2, s3, s4, s5,
    beRead_be64 scid h1, beRead_be32 fb h2, beRead_be32 fp h3, beRead_be16 cd h4]

theorem parseAllAux_fuel : ∀ fuel fuel' data, data.length ≤ fuel → data.length ≤ fuel' →
    ExtraHop.parseAllAux fuel data = ExtraHop.parseAllAux fuel' data := by
  intro fuel
  induction fuel with
  | zero =>
      intro fuel' data h _
      have : data = [] := List.length_eq_zero.mp (by omega)
      subst this
      cases fuel' <;> simp [ExtraHop.parseAllAux]
  | succ f ih =>
      intro fuel' data hf hf'
      cases fuel' with
      | zero =>
          have : data = [] := List.length_eq_zero.mp (by omega)
          subst this
          simp [ExtraHop.parseAllAux]
      | succ f' =>
          show (if 51 ≤ data.length then _ else _) = (if 51 ≤ data.length then _ else _)
          by_cases h51 : 51 ≤ data.length
          · rw [if_pos h51, if_pos h51]
            rw [ih f' (data.drop 51) (by simp [List.length_drop]; omega)
                (by simp [List.length_drop]; omega)]
          · rw [if_neg h51, if_neg h51]

/-- The step equation of `ExtraHop::parse_all`. -/
theorem extraHop_parse_all_eqn (data : List Nat) :
    ExtraHop.parse_all data =
      if 51 ≤ data.length then
        ExtraHop.parseCore (data.take 51) :: ExtraHop.parse_all (data.drop 51)
      else [] := by
  by_cases h51 : 51 ≤ data.length
  · obtain ⟨m, hm⟩ : ∃ m, data.length = m + 1 := ⟨data.length - 1, by omega⟩
    rw [if_pos h51]
    unfold ExtraHop.parse_all
    rw [hm]
    show (if 51 ≤ data.length then
        ExtraHop.parseCore (data.take 51) :: ExtraHop.parseAllAux m (data.drop 51)
      else []) = _
    rw [if_pos h51]
    rw [parseAllAux_fuel m ((data.drop 51).length) (data.drop 51)
        (by simp [List.length_drop]; omega) (le_refl _)]
  · rw [if_neg h51]
    unfold ExtraHop.parse_all
    cases hd : data.length with
    | zero => rfl
    | succ m =>
        show (if 51 ≤ data.length then _ else _) = ([] : List ExtraHop)
        rw [if_neg h51]

/-- Parsing the concatenation of packed hops recovers the hop list. -/
theorem extraHop_parse_all_packs (path : List ExtraHop) (hg : ∀ hp ∈ path, HopGood hp) :
    ExtraHop.parse_all (Tag.packsConcat path) = path := by
  induction path with
  | nil => rfl
  | cons hp t ih =>
      have hghp : HopGood hp := hg hp (by simp)
      have hpk : hp.pub_key.length = 33 := hghp.1
      show ExtraHop.parse_all (ExtraHop.pack hp ++ Tag.packsConcat t) = hp :: t
      rw [extraHop_parse_all_eqn]
      rw [if_pos (by simp [List.length_append, pack_length hp hpk])]
      rw [List.take_left' (pack_length hp hpk), List.drop_left' (pack_length hp hpk)]
      rw [parseCore_pack hp hghp, ih (fun x hx => hg x (by simp [hx]))]

/-- C9: For every ExtraHop h whose pub_key field holds exactly 33 bytes (and
whose numeric fields are in the ranges of their Rust types `u64`/`u32`/`u16`),
`ExtraHop::pack(h)` produces exactly 51 bytes, and
`ExtraHop::parse(ExtraHop::pack(h)) == h`. -/
theorem c9_extrahop_roundtrip (hp : ExtraHop) (hpk : hp.pub_key.length = 33)
    (h1 : hp.short_channel_id < 2 ^ 64) (h2 : hp.fee_base_msat < 2 ^ 32)
    (h3 : hp.fee_proportional_millionths < 2 ^ 32) (h4 : hp.cltv_expiry_delta < 2 ^ 16) :
    (ExtraHop.pack hp).length = 51 ∧ ExtraHop.parse (ExtraHop.pack hp) = .ok hp := by
  refine ⟨pack_length hp hpk, ?_⟩
  unfold ExtraHop.parse
  rw [if_pos (by rw [pack_length hp hpk])]
  rw [parseCore_pack hp ⟨hpk, h1, h2, h3, h4⟩]

/-- Witness for C9 at a concrete hop. -/
theorem c9_extrahop_roundtrip_witness :
    (ExtraHop.pack ⟨List.replicate 33 7, 5, 6, 8, 9⟩).length = 51 ∧
      ExtraHop.parse (ExtraHop.pack ⟨List.replicate 33 7, 5, 6, 8, 9⟩) =
        .ok ⟨List.replicate 33 7, 5, 6, 8, 9⟩ :=
  c9_extrahop_roundtrip ⟨List.replicate 33 7, 5, 6, 8, 9⟩
    (by decide) (by decide) (by decide) (by decide) (by decide)

/-- C10: `ExtraHop::parse` unconditionally reads bytes 0 through 50, so on
any input shorter than 51 bytes it panics (slice out of bounds) rather than
returning a value or an error; on any input of at least 51 bytes all five
slice reads are in bounds and it returns the parsed hop. -/
theorem c10_extrahop_parse_total (data : List Nat) :
    (data.length < 51 → ExtraHop.parse data = .panic) ∧
      (51 ≤ data.length → ExtraHop.parse data = .ok (ExtraHop.parseCore data)) := by
  constructor
  · intro h
    unfold ExtraHop.parse
    rw [if_neg (by omega)]
  · intro h
    unfold ExtraHop.parse
    rw [if_pos h]

/-- Witness for C10 at concrete inputs on both sides of the bound. -/
theorem c10_extrahop_parse_total_witness :
    ExtraHop.parse (List.replicate 50 0) = .panic ∧
      ExtraHop.parse (List.replicate 51 0) =
        .ok (ExtraHop.parseCore (List.replicate 51 0)) :=
  ⟨(c10_extrahop_parse_total (List.replicate 50 0)).1 (by decide),
   (c10_extrahop_parse_total (List.replicate 51 0)).2 (by decide)⟩

-- ### The amount codec (src/lnaddr.rs)

/-- Strip one leading `+`/`-` sign. -/
def stripSign : List Char → List Char
  | c :: t => if c = '+' ∨ c = '-' then t else c :: t
  | [] => []

/-- Split a character list at the first exponent marker `e`/`E`. -/
def splitExp : List Char → List Char × Option (List Char)
  | [] => ([], none)
  | c :: t =>
    if c = 'e' ∨ c = 'E' then ([], some t)
    else
      let p := splitExp t
      (c :: p.1, p.2)

/-- Mantissa check: only digits and at most one dot, with at least one
digit. -/
def mantOk (m : List Char) : Bool :=
  m.all (fun c => c.isDigit || c = '.') && decide (m.count '.' ≤ 1) && m.any (fun c => c.isDigit)

/-- Exponent check: an optional sign followed by at least one digit. -/
def expOk (e : List Char) : Bool :=
  let e' := stripSign e
  !e'.isEmpty && e'.all (fun c => c.isDigit)

/-- Success condition of Rust's `str::parse::<f64>` (standard library,
external to the repository), per its documented grammar:
`Sign? (inf|infinity|nan|Number Exp?)` case-insensitively, where `Number` is
digits with an optional dot (at least one digit) and `Exp` is `e`/`E`,
an optional sign and digits. -/
def isF64Numeric (l : List Char) : Bool :=
  let l' := stripSign l
  let low := l'.map Char.toLower
  if low = "inf".toList ∨ low = "infinity".toList ∨ low = "nan".toList then true
  else
    match splitExp l' with
    | (m, none) => mantOk m
    | (m, some e) => mantOk m && expOk e

/-- The string `unshorten_amount` hands to `parse::<f64>`: the input without
its trailing multiplier letter when the last character is one of
`p`/`n`/`u`/`m`, the whole input otherwise. -/
def numericBody (amount : List Char) : List Char :=
  match amount.getLast? with
  | some c => if c = 'p' ∨ c = 'n' ∨ c = 'u' ∨ c = 'm' then amount.dropLast else amount
  | none => amount

/-- `unshorten_amount` (src/lnaddr.rs:35-60), control behaviour only: the
returned `f64` value is floating point and not modelled here, but whether
the call returns normally or aborts in `.expect("Invalid amount")` depends
only on whether the numeric body parses under the `f64` grammar. -/
def unshorten_amount (amount : List Char) : ROut Unit :=
  let unit : Option Char :=
    match amount.getLast? with
    | some c => if c = 'p' ∨ c = 'n' ∨ c = 'u' ∨ c = 'm' then some c else none
    | none => none
  match unit with
  | some _ => if isF64Numeric amount.dropLast then .ok () else .panic
  | none => if isF64Numeric amount then .ok () else .panic

example : isF64Numeric "123".toList = true := by decide
example : isF64Numeric "12.5".toList = true := by decide
example : isF64Numeric "1e-3".toList = true := by decide
example : isF64Numeric "".toList = false := by decide
example : isF64Numeric "12a".toList = false := by decide
example : unshorten_amount "10p".toList = .ok () := by decide
example : unshorten_amount "3".toList = .ok () := by decide

/-- C6 counterexample: on the non-numeric input `"abc"`,
`unshorten_amount` panics (aborts in `.expect`); it does not return the
`InvalidAmount` error value as the claim states. -/
theorem c6_nonnumeric_counterexample :
    unshorten_amount "abc".toList = .panic ∧
      (ROut.panic : ROut Unit) ≠ .err .invalidAmount := by
  constructor
  · decide
  · decide

/-- C6 as amended: for every input whose numeric body is not parseable as an
`f64` (including the empty body), `unshorten_amount` aborts in
`.expect("Invalid amount")` — modelled as the `.panic` outcome — rather than
returning an `InvalidAmount` error value. -/
theorem c6_nonnumeric_aborts (amount : List Char)
    (h : isF64Numeric (numericBody amount) = false) :
    unshorten_amount amount = .panic := by
  unfold numericBody at h
  unfold unshorten_amount
  cases hL : amount.getLast? with
  | none =>
      simp only [hL] at h ⊢
      simp [h]
  | some c =>
      simp only [hL] at h ⊢
      by_cases hc : c = 'p' ∨ c = 'n' ∨ c = 'u' ∨ c = 'm'
      · simp only [if_pos hc] at h ⊢
        simp [h]
      · simp only [if_neg hc] at h ⊢
        simp [h]

/-- Witness for C6 at the concrete input `"abc"`. -/
theorem c6_nonnumeric_aborts_witness : unshorten_amount "abc".toList = .panic :=
  c6_nonnumeric_aborts "abc".toList (by decide)

-- ### The raw-tag extraction loop

theorem splitTagsAux_small (fuel : Nat) (l : List Nat) (h : l.length ≤ 3) :
    Tag.splitTagsAux fuel l = .ok [] := by
  cases fuel with
  | zero => rfl
  | succ f =>
      unfold Tag.splitTagsAux
      rw [if_neg (by omega)]

theorem splitTagsAux_fuel : ∀ fuel fuel' data, data.length ≤ fuel → data.length ≤ fuel' →
    Tag.splitTagsAux fuel data = Tag.splitTagsAux fuel' data := by
  intro fuel
  induction fuel with
  | zero =>
      intro fuel' data h _
      rw [splitTagsAux_small 0 data (by omega), splitTagsAux_small fuel' data (by omega)]
  | succ f ih =>
      intro fuel' data hf hf'
      by_cases h3 : 3 < data.length
      · cases fuel' with
        | zero => omega
        | succ f' =>
            unfold Tag.splitTagsAux
            rw [if_pos h3, if_pos h3]
            by_cases h0 : Tag.rawTagLen data = 0
            · rw [if_pos h0, if_pos h0]
            · rw [if_neg h0, if_neg h0]
              by_cases hle : Tag.rawTagLen data ≤ data.length
              · rw [if_pos hle, if_pos hle,
                  ih f' (data.drop (Tag.rawTagLen data)) (by simp; omega) (by simp; omega)]
              · rw [if_neg hle, if_neg hle]
      · rw [splitTagsAux_small _ data (by omega), splitTagsAux_small fuel' data (by omega)]

/-- The step equation of the raw-tag extraction loop. -/
theorem splitTags_eqn (data : List Nat) :
    Tag.splitTags data =
      if 3 < data.length then
        if Tag.rawTagLen data = 0 then .diverge
        else if Tag.rawTagLen data ≤ data.length then
          match Tag.splitTags (data.drop (Tag.rawTagLen data)) with
          | .ok r => .ok (data.take (Tag.rawTagLen data) :: r)
          | other => other
        else .err .invalidLength
      else .ok [] := by
  by_cases h3 : 3 < data.length
  · obtain ⟨m, hm⟩ : ∃ m, data.length = m + 1 := ⟨data.length - 1, by omega⟩
    have lhs_eq : Tag.splitTags data =
        (if 3 < data.length then
          if Tag.rawTagLen data = 0 then .diverge
          else if Tag.rawTagLen data ≤ data.length then
            match Tag.splitTagsAux m (data.drop (Tag.rawTagLen data)) with
            | .ok r => .ok (data.take (Tag.rawTagLen data) :: r)
            | other => other
          else .err .invalidLength
        else .ok []) := by
      conv_lhs => rw [show Tag.splitTags data = Tag.splitTagsAux data.length data from rfl, hm]
      simp only [Tag.splitTagsAux]
    rw [lhs_eq, if_pos h3, if_pos h3]
    by_cases h0 : Tag.rawTagLen data = 0
    · rw [if_pos h0, if_pos h0]
    · rw [if_neg h0, if_neg h0]
      by_cases hle : Tag.rawTagLen data ≤ data.length
      · rw [if_pos hle, if_pos hle]
        rw [show Tag.splitTags (data.drop (Tag.rawTagLen data)) =
            Tag.splitTagsAux ((data.drop (Tag.rawTagLen data)).length)
              (data.drop (Tag.rawTagLen data)) from rfl]
        rw [splitTagsAux_fuel m ((data.drop (Tag.rawTagLen data)).length)
            (data.drop (Tag.rawTagLen data)) (by simp; omega) (le_refl _)]
      · rw [if_neg hle, if_neg hle]
  · rw [if_neg h3]
    unfold Tag.splitTags
    rw [splitTagsAux_small _ data (by omega)]

-- ### C2, C3: the length guard and the error policy of parse_all

/-- C2: the claim states that `Tag::parse` returns `InvalidLength` whenever
the buffer holds fewer than `len + 3` symbols and never reads past the end.
In the code the guard is `len <= input.len() + 3` rather than
`len + 3 <= input.len()`, so on `[13, 0, 5]` (a `d` tag declaring a 5-symbol
payload in a 3-symbol buffer) the guard passes and the slice `input[3..8]`
panics instead of returning the error. -/
theorem c2_short_buffer_panics :
    Tag.parse [13, 0, 5] = .panic ∧ (ROut.panic : ROut Tag) ≠ .err .invalidLength := by
  constructor
  · decide
  · decide

/-- C3: the claim states that `Tag::parse_all` returns the first error some
extracted raw tag produces under `Tag::parse`.  In the code the collection
step is `raw_tags.iter().flat_map(Tag::parse)`, and `Result`'s iterator
silently drops errors: on the single raw tag `[13, 0, 4, 31, 31, 31, 16]`
(a `d` tag whose payload repacks to the invalid UTF-8 bytes `[255, 255]`),
`Tag::parse` fails with the UTF-8 error, yet `parse_all` returns `Ok([])`,
omitting the failing tag. -/
theorem c3_parse_all_drops_error :
    Tag.parse [13, 0, 4, 31, 31, 31, 16] = .err .fromUTF8Err ∧
      Tag.parse_all [13, 0, 4, 31, 31, 31, 16] = .ok [] := by
  constructor
  · decide
  · decide

-- ### C8: the trailing-remnant boundary of parse_all

/-- C8 counterexample: the claim states that a complete 3-symbol zero-payload
tag at the very end of the stream is still parsed.  On `[6, 0, 0]` (an `x`
tag with declared length 0, which `Tag::parse` would accept as
`Expiry{seconds: 0}`), the loop condition `data.len() > 3` is already false,
so `parse_all` returns `Ok([])` and the tag is discarded. -/
theorem c8_remnant_counterexample :
    Tag.parse_all [6, 0, 0] = .ok [] ∧
      Tag.parse [6, 0, 0] = .ok (Tag.expiry 0) ∧
      (ROut.ok ([] : List Tag)) ≠ .ok [Tag.expiry 0] := by
  refine ⟨by decide, by decide, by decide⟩

/-- C8 as amended: `Tag::parse_all` consumes tags from the front of the
stream while *more than* 3 symbols remain; any leftover of at most 3 symbols
— including a complete 3-symbol zero-payload tag at the very end — is
treated as a padding remnant and discarded.  (The concrete 5-symbol expiry
tag prefix shows the front consumption.) -/
theorem c8_remnant_amended (input : List Nat) (h : input.length ≤ 3) :
    Tag.parse_all input = .ok [] ∧
      Tag.parse_all ([6, 0, 2, 1, 28] ++ input) = .ok [Tag.expiry 60] := by
  constructor
  · unfold Tag.parse_all Tag.splitTags
    rw [splitTagsAux_small input.length input h]
    rfl
  · unfold Tag.parse_all
    rw [splitTags_eqn]
    have hlen : Tag.rawTagLen ([6, 0, 2, 1, 28] ++ input) = 5 := by
      simp [Tag.rawTagLen, List.getD]
    rw [hlen]
    rw [if_pos (by simp), if_neg (by omega), if_pos (by simp)]
    rw [show List.drop 5 ([6, 0, 2, 1, 28] ++ input) = input from rfl]
    rw [show List.take 5 ([6, 0, 2, 1, 28] ++ input) = [6, 0, 2, 1, 28] from rfl]
    rw [show Tag.splitTags input = Tag.splitTagsAux input.length input from rfl]
    rw [splitTagsAux_small input.length input h]
    show Tag.collectTags [[6, 0, 2, 1, 28]] = .ok [Tag.expiry 60]
    decide

/-- Witness for C8 at a concrete remnant. -/
theorem c8_remnant_amended_witness :
    Tag.parse_all [24, 0, 0] = .ok [] ∧
      Tag.parse_all ([6, 0, 2, 1, 28] ++ [24, 0, 0]) = .ok [Tag.expiry 60] :=
  c8_remnant_amended [24, 0, 0] (by decide)

-- ### C4: the length-field bound on serialization

/-- C4 counterexample: a `Description` of 640 bytes has a 1024-symbol
payload — above the claimed 1023 bound — yet `to_vec_u5` succeeds:
`vec_u5_aux` performs no bound check and emits the out-of-range length-high
symbol `32`. -/
theorem c4_oversize_counterexample :
    (to_u5_vec (List.replicate 640 97)).length = 1024 ∧
      Tag.to_vec_u5 (Tag.description (List.replicate 640 97)) =
        .ok (13 :: 32 :: 0 :: to_u5_vec (List.replicate 640 97)) := by
  constructor
  · rw [to_u5_vec_length]
    norm_num
  · simp only [Tag.to_vec_u5, Tag.vec_u5_aux]
    rw [to_u5_vec_length]
    norm_num

/-- C4 as amended: only the `write_size` path enforces the 10-bit bound.
Serializing an `UnknownTag` whose payload exceeds 1023 symbols fails with
`InvalidLength`; the tags built through `vec_u5_aux` (payment hash,
description, description hash, fallback address, routing info) emit an
out-of-range length symbol without failing, as the counterexample shows. -/
theorem c4_unknown_oversize_invalid_length (tag : Nat) (bytes : List Nat)
    (h : 1023 < bytes.length) :
    Tag.to_vec_u5 (.unknownTag tag bytes) = .error .invalidLength := by
  simp only [Tag.to_vec_u5]
  rw [write_size_ge bytes.length (by omega)]
  rfl

/-- Witness for C4 at a concrete oversize unknown tag. -/
theorem c4_unknown_oversize_invalid_length_witness :
    Tag.to_vec_u5 (.unknownTag 0 (List.replicate 1024 0)) = .error .invalidLength :=
  c4_unknown_oversize_invalid_length 0 (List.replicate 1024 0) (by simp)

-- ### C7: fallback tags with unknown version

/-- C7 as amended (restricted to declared payload lengths at most 255, i.e.
length-high symbol below 8, since the parser recomputes the length in `u8`
arithmetic): a well-formed `f` tag whose first payload symbol is a version
above 18 parses to `UnknownTag` carrying the tag letter and the whole
payload verbatim, never an error. -/
theorem c7_fallback_unknown_version (hi lo v : Nat) (rest : List Nat)
    (hhi : hi < 8) (hlo : lo < 32)
    (hlen : rest.length + 1 = 32 * hi + lo)
    (hv : 18 < v) :
    Tag.parse (9 :: hi :: lo :: v :: rest) = .ok (.unknownTag 9 (v :: rest)) := by
  have hL : Tag.declaredLen (9 :: hi :: lo :: v :: rest) = 32 * hi + lo := by
    unfold Tag.declaredLen
    simp [List.getD]
    omega
  unfold Tag.parse
  simp only [List.head?_cons, hL]
  rw [if_pos (show 3 ≤ (9 :: hi :: lo :: v :: rest).length by simp)]
  rw [if_pos (show 32 * hi + lo ≤ (9 :: hi :: lo :: v :: rest).length + 3 by simp; omega)]
  rw [if_neg (show ¬(9 = 1) by omega), if_neg (show ¬(9 = 13) by omega),
    if_neg (show ¬(9 = 23) by omega)]
  simp only [if_true]
  rw [if_pos (show 3 < (9 :: hi :: lo :: v :: rest).length by simp)]
  rw [if_pos (show 1 ≤ 32 * hi + lo ∧ 32 * hi + lo + 3 ≤ (9 :: hi :: lo :: v :: rest).length by
    constructor
    · omega
    · simp; omega)]
  rw [if_neg (show ¬((9 :: hi :: lo :: v :: rest).getD 3 0 ≤ 18) by simp [List.getD]; omega)]
  show ROut.ok (Tag.unknownTag 9 (lslice (9 :: hi :: lo :: v :: rest) 3 (32 * hi + lo + 3))) = _
  unfold lslice
  rw [show 32 * hi + lo + 3 - 3 = 32 * hi + lo by omega]
  rw [show List.drop 3 (9 :: hi :: lo :: v :: rest) = v :: rest from rfl]
  rw [show 32 * hi + lo = (v :: rest).length by simp; omega, List.take_length]

/-- C7 counterexample: a well-formed `f` tag with a 256-symbol payload
(length header `8, 0`) and version 19.  The parser's `u8` length arithmetic
wraps `8 * 32 + 0` to 0, and the eager slice `input[4..0 + 3]` panics
(start beyond end), so the claim's promised `UnknownTag` success does not
happen. -/
theorem c7_fallback_counterexample :
    Tag.parse (9 :: 8 :: 0 :: 19 :: List.replicate 255 0) = .panic ∧
      (ROut.panic : ROut Tag) ≠ .ok (.unknownTag 9 (19 :: List.replicate 255 0)) := by
  constructor
  · decide
  · decide

/-- Witness for C7 at a concrete two-symbol payload. -/
theorem c7_fallback_unknown_version_witness :
    Tag.parse [9, 0, 2, 19, 33] = .ok (.unknownTag 9 [19, 33]) :=
  c7_fallback_unknown_version 0 2 19 [33] (by decide) (by decide) (by decide) (by decide)

-- ### C1: the tag round trip

/-- The slice `[a, b, c] ++ l`[3..n+3]` is the whole payload `l`. -/
theorem lslice_cons3 (a b c : Nat) (l : List Nat) (n : Nat) (h : l.length = n) :
    lslice (a :: b :: c :: l) 3 (n + 3) = l := by
  unfold lslice
  rw [show n + 3 - 3 = n by omega, show List.drop 3 (a :: b :: c :: l) = l from rfl,
    ← h, List.take_length]

theorem declaredLen_cons (a b c : Nat) (l : List Nat) :
    Tag.declaredLen (a :: b :: c :: l) = (b * 32 + c) % 256 := by
  simp [Tag.declaredLen, List.getD]

/-- The tag letters `Tag::parse` recognizes. -/
def tagLetters : List Nat := [1, 13, 23, 9, 3, 6, 24]

/-- The documented bounds on a `Tag`, restricted to payloads of at most 255
symbols (the `u8`-arithmetic length recomputation in `Tag::parse` wraps at
256): 32-byte hashes; description text of at most 159 bytes (255 symbols);
fallback version at most 18 with at most 158 hash bytes (1 + 253 symbols);
`u64` counters; at most 3 routing hops (245 symbols) with 33-byte keys and
fields within their Rust types; unknown tags with an unrecognized letter and
at most 255 symbols. -/
def inBounds255 : Tag → Bool
  | .paymentHash hash => decide (hash.length = 32) && hash.all (fun x => decide (x < 256))
  | .description text =>
      validUtf8 text && text.all (fun x => decide (x < 256)) && decide (text.length ≤ 159)
  | .descriptionHash hash => decide (hash.length = 32) && hash.all (fun x => decide (x < 256))
  | .fallbackAddress version hash =>
      decide (version ≤ 18) && hash.all (fun x => decide (x < 256)) && decide (hash.length ≤ 158)
  | .expiry seconds => decide (seconds < 2 ^ 64)
  | .minFinalCltvExpiry blocks => decide (blocks < 2 ^ 64)
  | .routingInfo path =>
      path.all (fun hp => decide (hp.pub_key.length = 33) &&
        hp.pub_key.all (fun x => decide (x < 256)) &&
        decide (hp.short_channel_id < 2 ^ 64) && decide (hp.fee_base_msat < 2 ^ 32) &&
        decide (hp.fee_proportional_millionths < 2 ^ 32) &&
        decide (hp.cltv_expiry_delta < 2 ^ 16)) && decide (path.length ≤ 3)
  | .unknownTag tag bytes =>
      decide (tag < 32) && decide (tag ∉ tagLetters) &&
        bytes.all (fun x => decide (x < 32)) && decide (bytes.length ≤ 255)

theorem c1_payment (hash : List Nat) (hlen : hash.length = 32) (hb : ∀ x ∈ hash, x < 256) :
    ∃ v, Tag.to_vec_u5 (.paymentHash hash) = .ok v ∧
      Tag.parse v = .ok (.paymentHash hash) := by
  have hs : (to_u5_vec hash).length = 52 := by rw [to_u5_vec_length, hlen]
  refine ⟨1 :: 1 :: 20 :: to_u5_vec hash, ?_, ?_⟩
  · simp only [Tag.to_vec_u5, Tag.vec_u5_aux]
    rw [hs]
  · unfold Tag.parse
    simp only [List.head?_cons, declaredLen_cons]
    norm_num
    rw [if_pos (show 52 ≤ (to_u5_vec hash).length + 1 + 1 + 1 + 3 by simp [hs])]
    rw [if_pos (show 55 ≤ (to_u5_vec hash).length + 1 + 1 + 1 by simp [hs])]
    rw [show (55 : Nat) = 52 + 3 from rfl, lslice_cons3 1 1 20 (to_u5_vec hash) 52 hs]
    rw [roundtrip58 hash hb]

/-- The slice `[a, b, c, d] ++ l`[4..n+4]` is the whole tail `l`. -/
theorem lslice_cons4 (a b c d : Nat) (l : List Nat) (n : Nat) (h : l.length = n) :
    lslice (a :: b :: c :: d :: l) 4 (n + 4) = l := by
  unfold lslice
  rw [show n + 4 - 4 = n by omega, show List.drop 4 (a :: b :: c :: d :: l) = l from rfl,
    ← h, List.take_length]

theorem natToU5_length_pow (k : Nat) : ∀ n, n < 32 ^ k → (natToU5 n).length ≤ k := by
  induction k with
  | zero =>
      intro n h
      have : n = 0 := by simpa using h
      subst this
      simp [natToU5, natToU5Aux]
  | succ k ih =>
      intro n h
      by_cases h0 : n = 0
      · subst h0; simp [natToU5, natToU5Aux]
      · rw [natToU5_pos n h0]
        have : n / 32 < 32 ^ k := by
          rw [Nat.div_lt_iff_lt_mul (by omega)]
          calc n < 32 ^ (k + 1) := h
          _ = 32 ^ k * 32 := by ring
        simp [List.length_append]
        have := ih (n / 32) this
        omega

theorem natToU5_u64_len (n : Nat) (h : n < 2 ^ 64) : (natToU5 n).length ≤ 13 := by
  apply natToU5_length_pow 13 n
  calc n < 2 ^ 64 := h
  _ ≤ 32 ^ 13 := by norm_num

theorem c1_description_hash (hash : List Nat) (hlen : hash.length = 32)
    (hb : ∀ x ∈ hash, x < 256) :
    ∃ v, Tag.to_vec_u5 (.descriptionHash hash) = .ok v ∧
      Tag.parse v = .ok (.descriptionHash hash) := by
  have hs : (to_u5_vec hash).length = 52 := by rw [to_u5_vec_length, hlen]
  refine ⟨23 :: 1 :: 20 :: to_u5_vec hash, ?_, ?_⟩
  · simp only [Tag.to_vec_u5, Tag.vec_u5_aux]
    rw [hs]
  · unfold Tag.parse
    simp only [List.head?_cons, declaredLen_cons]
    norm_num
    rw [if_pos (show 52 ≤ (to_u5_vec hash).length + 1 + 1 + 1 + 3 by simp [hs])]
    rw [if_pos (show 52 + 3 ≤ (to_u5_vec hash).length + 1 + 1 + 1 by simp [hs])]
    rw [lslice_cons3 23 1 20 (to_u5_vec hash) 52 hs]
    rw [roundtrip58 hash hb]

theorem c1_description (text : List Nat) (hutf : validUtf8 text = true)
    (hb : ∀ x ∈ text, x < 256) (hlen : text.length ≤ 159) :
    ∃ v, Tag.to_vec_u5 (.description text) = .ok v ∧
      Tag.parse v = .ok (.description text) := by
  have hsl : (to_u5_vec text).length = (8 * text.length + 4) / 5 := to_u5_vec_length text
  have hsl255 : (to_u5_vec text).length ≤ 255 := by omega
  refine ⟨13 :: (to_u5_vec text).length / 32 :: (to_u5_vec text).length % 32 :: to_u5_vec text,
    ?_, ?_⟩
  · simp only [Tag.to_vec_u5, Tag.vec_u5_aux]
    rw [show (to_u5_vec text).length / 32 % 256 = (to_u5_vec text).length / 32 by omega]
  · unfold Tag.parse
    simp only [List.head?_cons, declaredLen_cons]
    rw [show ((to_u5_vec text).length / 32 * 32 + (to_u5_vec text).length % 32) % 256
        = (to_u5_vec text).length by omega]
    rw [if_pos (show 3 ≤ (13 :: (to_u5_vec text).length / 32 ::
        (to_u5_vec text).length % 32 :: to_u5_vec text).length by simp)]
    rw [if_pos (show (to_u5_vec text).length ≤ (13 :: (to_u5_vec text).length / 32 ::
        (to_u5_vec text).length % 32 :: to_u5_vec text).length + 3 by
      simp only [List.length_cons]; omega)]
    simp only [if_true]
    rw [if_pos (show (to_u5_vec text).length + 3 ≤ (13 :: (to_u5_vec text).length / 32 ::
        (to_u5_vec text).length % 32 :: to_u5_vec text).length by
      simp only [List.length_cons]; omega)]
    rw [lslice_cons3 13 _ _ (to_u5_vec text) (to_u5_vec text).length rfl]
    rw [roundtrip58 text hb]
    simp [hutf]

theorem c1_expiry (seconds : Nat) (h : seconds < 2 ^ 64) :
    ∃ v, Tag.to_vec_u5 (.expiry seconds) = .ok v ∧ Tag.parse v = .ok (.expiry seconds) := by
  have hk : (natToU5 seconds).length ≤ 13 := natToU5_u64_len seconds h
  refine ⟨6 :: 0 :: (natToU5 seconds).length :: natToU5 seconds, ?_, ?_⟩
  · simp only [Tag.to_vec_u5]
    rw [write_size_lt (natToU5 seconds).length (by omega)]
    rw [show (natToU5 seconds).length / 32 = 0 by omega,
      show (natToU5 seconds).length % 32 = (natToU5 seconds).length by omega]
    rfl
  · unfold Tag.parse
    simp only [List.head?_cons, declaredLen_cons]
    rw [show (0 * 32 + (natToU5 seconds).length) % 256 = (natToU5 seconds).length by omega]
    rw [if_pos (show 3 ≤ (6 :: 0 :: (natToU5 seconds).length :: natToU5 seconds).length by simp)]
    rw [if_pos (show (natToU5 seconds).length ≤
        (6 :: 0 :: (natToU5 seconds).length :: natToU5 seconds).length + 3 by
      simp only [List.length_cons]; omega)]
    simp only [if_true]
    rw [if_pos (show (natToU5 seconds).length + 3 ≤
        (6 :: 0 :: (natToU5 seconds).length :: natToU5 seconds).length by
      simp only [List.length_cons]; omega)]
    rw [lslice_cons3 6 _ _ (natToU5 seconds) (natToU5 seconds).length rfl]
    unfold u5VecToU64
    rw [List.take_length, natToU5_fold seconds, Nat.mod_eq_of_lt h]
    norm_num [List.length_cons]

theorem c1_min_final (blocks : Nat) (h : blocks < 2 ^ 64) :
    ∃ v, Tag.to_vec_u5 (.minFinalCltvExpiry blocks) = .ok v ∧
      Tag.parse v = .ok (.minFinalCltvExpiry blocks) := by
  have hk : (natToU5 blocks).length ≤ 13 := natToU5_u64_len blocks h
  refine ⟨24 :: 0 :: (natToU5 blocks).length :: natToU5 blocks, ?_, ?_⟩
  · simp only [Tag.to_vec_u5]
    rw [write_size_lt (natToU5 blocks).length (by omega)]
    rw [show (natToU5 blocks).length / 32 = 0 by omega,
      show (natToU5 blocks).length % 32 = (natToU5 blocks).length by omega]
    rfl
  · unfold Tag.parse
    simp only [List.head?_cons, declaredLen_cons]
    rw [show (0 * 32 + (natToU5 blocks).length) % 256 = (natToU5 blocks).length by omega]
    rw [if_pos (show 3 ≤ (24 :: 0 :: (natToU5 blocks).length :: natToU5 blocks).length by simp)]
    rw [if_pos (show (natToU5 blocks).length ≤
        (24 :: 0 :: (natToU5 blocks).length :: natToU5 blocks).length + 3 by
      simp only [List.length_cons]; omega)]
    simp only [if_true]
    rw [if_pos (show (natToU5 blocks).length + 3 ≤
        (24 :: 0 :: (natToU5 blocks).length :: natToU5 blocks).length by
      simp only [List.length_cons]; omega)]
    rw [lslice_cons3 24 _ _ (natToU5 blocks) (natToU5 blocks).length rfl]
    unfold u5VecToU64
    rw [List.take_length, natToU5_fold blocks, Nat.mod_eq_of_lt h]
    norm_num [List.length_cons]

theorem c1_fallback (version : Nat) (hash : List Nat) (hv : version ≤ 18)
    (hb : ∀ x ∈ hash, x < 256) (hlen : hash.length ≤ 158) :
    ∃ v, Tag.to_vec_u5 (.fallbackAddress version hash) = .ok v ∧
      Tag.parse v = .ok (.fallbackAddress version hash) := by
  have hsl : (to_u5_vec hash).length = (8 * hash.length + 4) / 5 := to_u5_vec_length hash
  have hsl253 : (to_u5_vec hash).length ≤ 253 := by omega
  refine ⟨9 :: ((to_u5_vec hash).length + 1) / 32 :: ((to_u5_vec hash).length + 1) % 32 ::
    version :: to_u5_vec hash, ?_, ?_⟩
  · simp only [Tag.to_vec_u5, Tag.vec_u5_aux, List.length_cons]
    rw [show ((to_u5_vec hash).length + 1) / 32 % 256 = ((to_u5_vec hash).length + 1) / 32
      by omega]
  · unfold Tag.parse
    simp only [List.head?_cons, declaredLen_cons]
    rw [show (((to_u5_vec hash).length + 1) / 32 * 32 + ((to_u5_vec hash).length + 1) % 32) % 256
        = (to_u5_vec hash).length + 1 by omega]
    rw [if_pos (show 3 ≤ (9 :: ((to_u5_vec hash).length + 1) / 32 ::
        ((to_u5_vec hash).length + 1) % 32 :: version :: to_u5_vec hash).length by simp)]
    rw [if_pos (show (to_u5_vec hash).length + 1 ≤ (9 :: ((to_u5_vec hash).length + 1) / 32 ::
        ((to_u5_vec hash).length + 1) % 32 :: version :: to_u5_vec hash).length + 3 by
      simp only [List.length_cons]; omega)]
    rw [if_neg (show ¬((9 : Nat) = 1) by omega), if_neg (show ¬((9 : Nat) = 13) by omega),
      if_neg (show ¬((9 : Nat) = 23) by omega)]
    simp only [if_true]
    rw [if_pos (show 3 < (9 :: ((to_u5_vec hash).length + 1) / 32 ::
        ((to_u5_vec hash).length + 1) % 32 :: version :: to_u5_vec hash).length by
      simp only [List.length_cons]; omega)]
    rw [if_pos (show 1 ≤ (to_u5_vec hash).length + 1 ∧ (to_u5_vec hash).length + 1 + 3 ≤
        (9 :: ((to_u5_vec hash).length + 1) / 32 :: ((to_u5_vec hash).length + 1) % 32 ::
          version :: to_u5_vec hash).length by
      refine ⟨by omega, ?_⟩
      simp only [List.length_cons]; omega)]
    rw [show (9 :: ((to_u5_vec hash).length + 1) / 32 :: ((to_u5_vec hash).length + 1) % 32 ::
        version :: to_u5_vec hash).getD 3 0 = version from rfl]
    rw [if_pos hv]
    rw [show (to_u5_vec hash).length + 1 + 3 = (to_u5_vec hash).length + 4 by omega]
    rw [lslice_cons4 9 _ _ version (to_u5_vec hash) (to_u5_vec hash).length rfl]
    rw [roundtrip58 hash hb]

theorem c1_unknown (t : Nat) (bytes : List Nat) (hnl : t ∉ tagLetters)
    (hlen : bytes.length ≤ 255) :
    ∃ v, Tag.to_vec_u5 (.unknownTag t bytes) = .ok v ∧
      Tag.parse v = .ok (.unknownTag t bytes) := by
  have hne : ¬(t = 1) ∧ ¬(t = 13) ∧ ¬(t = 23) ∧ ¬(t = 9) ∧ ¬(t = 3) ∧ ¬(t = 6) ∧ ¬(t = 24) := by
    simp [tagLetters] at hnl
    tauto
  refine ⟨t :: bytes.length / 32 :: bytes.length % 32 :: bytes, ?_, ?_⟩
  · simp only [Tag.to_vec_u5]
    rw [write_size_lt bytes.length (by omega)]
    rfl
  · unfold Tag.parse
    simp only [List.head?_cons, declaredLen_cons]
    rw [show (bytes.length / 32 * 32 + bytes.length % 32) % 256 = bytes.length by omega]
    rw [if_pos (show 3 ≤ (t :: bytes.length / 32 :: bytes.length % 32 :: bytes).length by simp)]
    rw [if_pos (show bytes.length ≤
        (t :: bytes.length / 32 :: bytes.length % 32 :: bytes).length + 3 by
      simp only [List.length_cons]; omega)]
    rw [if_neg hne.1, if_neg hne.2.1, if_neg hne.2.2.1, if_neg hne.2.2.2.1,
      if_neg hne.2.2.2.2.1, if_neg hne.2.2.2.2.2.1, if_neg hne.2.2.2.2.2.2]
    rw [if_pos (show bytes.length + 3 ≤
        (t :: bytes.length / 32 :: bytes.length % 32 :: bytes).length by
      simp only [List.length_cons]; omega)]
    rw [lslice_cons3 t _ _ bytes bytes.length rfl]

theorem packsConcat_length (path : List ExtraHop) (h : ∀ hp ∈ path, hp.pub_key.length = 33) :
    (Tag.packsConcat path).length = 51 * path.length := by
  induction path with
  | nil => rfl
  | cons hp t ih =>
      show (ExtraHop.pack hp ++ Tag.packsConcat t).length = _
      rw [List.length_append, pack_length hp (h hp (by simp)), ih (fun x hx => h x (by simp [hx]))]
      simp only [List.length_cons]
      ring

theorem packsConcat_lt (path : List ExtraHop)
    (h : ∀ hp ∈ path, ∀ x ∈ hp.pub_key, x < 256) :
    ∀ x ∈ Tag.packsConcat path, x < 256 := by
  induction path with
  | nil => intro x hx; cases hx
  | cons hp t ih =>
      intro x hx
      rcases List.mem_append.mp hx with h1 | h1
      · exact pack_bytes_lt hp (h hp (by simp)) x h1
      · exact ih (fun y hy => h y (by simp [hy])) x h1

theorem c1_routing (path : List ExtraHop)
    (hg : ∀ hp ∈ path, HopGood hp) (hbk : ∀ hp ∈ path, ∀ x ∈ hp.pub_key, x < 256)
    (hlen : path.length ≤ 3) :
    ∃ v, Tag.to_vec_u5 (.routingInfo path) = .ok v ∧
      Tag.parse v = .ok (.routingInfo path) := by
  have hcl : (Tag.packsConcat path).length = 51 * path.length :=
    packsConcat_length path (fun hp hhp => (hg hp hhp).1)
  have hsl : (to_u5_vec (Tag.packsConcat path)).length = (8 * (51 * path.length) + 4) / 5 := by
    rw [to_u5_vec_length, hcl]
  have hsl245 : (to_u5_vec (Tag.packsConcat path)).length ≤ 245 := by omega
  refine ⟨3 :: (to_u5_vec (Tag.packsConcat path)).length / 32 ::
    (to_u5_vec (Tag.packsConcat path)).length % 32 :: to_u5_vec (Tag.packsConcat path), ?_, ?_⟩
  · simp only [Tag.to_vec_u5, Tag.vec_u5_aux]
    rw [show (to_u5_vec (Tag.packsConcat path)).length / 32 % 256
        = (to_u5_vec (Tag.packsConcat path)).length / 32 by omega]
  · unfold Tag.parse
    simp only [List.head?_cons, declaredLen_cons]
    rw [show ((to_u5_vec (Tag.packsConcat path)).length / 32 * 32 +
        (to_u5_vec (Tag.packsConcat path)).length % 32) % 256
        = (to_u5_vec (Tag.packsConcat path)).length by omega]
    rw [if_pos (show 3 ≤ (3 :: (to_u5_vec (Tag.packsConcat path)).length / 32 ::
        (to_u5_vec (Tag.packsConcat path)).length % 32 ::
        to_u5_vec (Tag.packsConcat path)).length by simp)]
    rw [if_pos (show (to_u5_vec (Tag.packsConcat path)).length ≤
        (3 :: (to_u5_vec (Tag.packsConcat path)).length / 32 ::
        (to_u5_vec (Tag.packsConcat path)).length % 32 ::
        to_u5_vec (Tag.packsConcat path)).length + 3 by
      simp only [List.length_cons]; omega)]
    rw [if_neg (show ¬((3 : Nat) = 1) by omega), if_neg (show ¬((3 : Nat) = 13) by omega),
      if_neg (show ¬((3 : Nat) = 23) by omega), if_neg (show ¬((3 : Nat) = 9) by omega)]
    simp only [if_true]
    rw [if_pos (show (to_u5_vec (Tag.packsConcat path)).length + 3 ≤
        (3 :: (to_u5_vec (Tag.packsConcat path)).length / 32 ::
        (to_u5_vec (Tag.packsConcat path)).length % 32 ::
        to_u5_vec (Tag.packsConcat path)).length by
      simp only [List.length_cons]; omega)]
    rw [lslice_cons3 3 _ _ (to_u5_vec (Tag.packsConcat path))
      (to_u5_vec (Tag.packsConcat path)).length rfl]
    rw [roundtrip58 (Tag.packsConcat path) (packsConcat_lt path hbk)]
    show ROut.ok (Tag.routingInfo (ExtraHop.parse_all (Tag.packsConcat path))) = _
    rw [extraHop_parse_all_packs path hg]

/-- C1 counterexample: a `Description` of 160 bytes is within the claim's
bounds (its 256-symbol payload fits the 10-bit length field), but the
parser's `u8` recomputation of the declared length wraps `8 * 32 + 0` to 0,
so parsing the serialization yields `Description{""}`, not the original
tag. -/
theorem c1_roundtrip_counterexample :
    Tag.to_vec_u5 (Tag.description (List.replicate 160 97)) =
        .ok (13 :: 8 :: 0 :: to_u5_vec (List.replicate 160 97)) ∧
      Tag.parse (13 :: 8 :: 0 :: to_u5_vec (List.replicate 160 97)) =
        .ok (Tag.description []) ∧
      Tag.description [] ≠ Tag.description (List.replicate 160 97) := by
  refine ⟨?_, ?_, ?_⟩
  · simp only [Tag.to_vec_u5, Tag.vec_u5_aux]
    rw [to_u5_vec_length]
    norm_num
  · decide
  · decide

/-- C1 as amended: for every `Tag` within its documented bounds whose
payload moreover does not exceed 255 U5 symbols (the parser recomputes the
10-bit length in `u8` arithmetic, so lengths of 256 and above wrap, cf. the
counterexample), parsing the serialization returns the original tag. -/
theorem c1_roundtrip_amended (t : Tag) (h : inBounds255 t = true) :
    ∃ v, Tag.to_vec_u5 t = .ok v ∧ Tag.parse v = .ok t := by
  cases t with
  | paymentHash hash =>
      simp only [inBounds255, Bool.and_eq_true, decide_eq_true_eq, List.all_eq_true] at h
      exact c1_payment hash h.1 (fun x hx => by simpa using h.2 x hx)
  | description text =>
      simp only [inBounds255, Bool.and_eq_true, decide_eq_true_eq, List.all_eq_true] at h
      exact c1_description text h.1.1 (fun x hx => by simpa using h.1.2 x hx) h.2
  | descriptionHash hash =>
      simp only [inBounds255, Bool.and_eq_true, decide_eq_true_eq, List.all_eq_true] at h
      exact c1_description_hash hash h.1 (fun x hx => by simpa using h.2 x hx)
  | fallbackAddress version hash =>
      simp only [inBounds255, Bool.and_eq_true, decide_eq_true_eq, List.all_eq_true] at h
      exact c1_fallback version hash h.1.1 (fun x hx => by simpa using h.1.2 x hx) h.2
  | expiry seconds =>
      simp only [inBounds255, decide_eq_true_eq] at h
      exact c1_expiry seconds h
  | minFinalCltvExpiry blocks =>
      simp only [inBounds255, decide_eq_true_eq] at h
      exact c1_min_final blocks h
  | routingInfo path =>
      simp only [inBounds255, Bool.and_eq_true, decide_eq_true_eq, List.all_eq_true] at h
      refine c1_routing path ?_ ?_ h.2
      · intro hp hhp
        have := h.1 hp hhp
        simp only [Bool.and_eq_true, decide_eq_true_eq] at this
        exact ⟨this.1.1.1.1.1, this.1.1.1.2, this.1.1.2, this.1.2, this.2⟩
      · intro hp hhp x hx
        have := h.1 hp hhp
        simp only [Bool.and_eq_true, decide_eq_true_eq, List.all_eq_true] at this
        simpa using this.1.1.1.1.2 x hx
  | unknownTag tag bytes =>
      simp only [inBounds255, Bool.and_eq_true, decide_eq_true_eq, List.all_eq_true] at h
      exact c1_unknown tag bytes h.1.1.2 h.2

/-- Witness for C1 at a concrete in-bounds tag. -/
theorem c1_roundtrip_amended_witness :
    inBounds255 (Tag.expiry 60) = true ∧
      ∃ v, Tag.to_vec_u5 (Tag.expiry 60) = .ok v ∧
        Tag.parse v = .ok (Tag.expiry 60) :=
  ⟨by decide, c1_roundtrip_amended (Tag.expiry 60) (by decide)⟩
